import Mathlib

/-!
Shallow embedding of the presence tracker and announcer of the
Grocery-Shopping-Item-Detector repository.

The tracker lives in `detectObjects` of `src/item-detector/src/app/page.tsx`;
the other variants (`src/shopping-item-detector/src/app/page.js` and the
related page in the same file) contain the same tracker logic verbatim.

Modelling choices, all taken from the source:
* Confidence scores are rationals.  The source only ever compares scores
  (the sort comparator `(a, b) => b.score - a.score` is used for its sign
  only), so the embedding into `ℚ` is exact.
* The two JavaScript `Set`s are modelled as insertion-ordered duplicate-free
  lists of strings, which is the observable behaviour of a JavaScript `Set`:
  `add` appends a missing element at the end, `delete` removes it, `has` is
  membership, `forEach` walks the insertion order.
-/

/-- A detection produced by the external model for one frame:
`{class, score, bbox}` in the source. -/
structure Detection where
  label : String
  score : ℚ
  bbox : ℚ × ℚ × ℚ × ℚ
deriving DecidableEq

/-- Tracking threshold: the source compares `pred.score > 0.55`. -/
def trackThreshold : ℚ := mkRat 55 100

/-- Announce threshold: the source compares `pred.score > 0.65`. -/
def announceThreshold : ℚ := mkRat 65 100

/-- `Set.add`: a JavaScript set keeps insertion order and ignores an element
already present. -/
def jsSetAdd (s : List String) (x : String) : List String :=
  if x ∈ s then s else s ++ [x]

/-- `Set.delete`: remove an element from a JavaScript set. -/
def jsSetDelete (s : List String) (x : String) : List String :=
  s.filter (fun y => y ≠ x)

/-- `allPredictions.filter(pred => pred.class !== "person")`. -/
def personFilter (preds : List Detection) : List Detection :=
  preds.filter (fun p => p.label ≠ "person")

/-- `newVisibleObjects`: walk the predictions in order and add each class
whose score is strictly above the tracking threshold
(`if (pred.score > 0.55) newVisibleObjects.add(pred.class)`). -/
def newVisibleObjects (preds : List Detection) : List String :=
  preds.foldl (fun s p => if trackThreshold < p.score then jsSetAdd s p.label else s) []

/-- The tracker state held in `currentlyVisibleObjectsRef` and
`announcedObjectsRef`. -/
structure TrackerState where
  visible : List String
  announced : List String
deriving DecidableEq

/-- Both refs are initialised to `new Set()`. -/
def initialState : TrackerState := ⟨[], []⟩

/-- `disappearedObjects`: the labels of the previous visible set that are
missing from `newVisibleObjects`, in iteration order. -/
def disappearedObjects (st : TrackerState) (nv : List String) : List String :=
  st.visible.filter (fun obj => obj ∉ nv)

/-- The disappearance pass: each disappeared label is deleted from the
announced set (`announcedObjectsRef.current.delete(obj)`). -/
def removeDisappeared (st : TrackerState) (nv : List String) : List String :=
  (disappearedObjects st nv).foldl jsSetDelete st.announced

/-- `highConfidencePredictions`: predictions with `score > 0.65` whose class
is not in the announced set (as it stands after the disappearance pass). -/
def candidateList (preds : List Detection) (announced : List String) : List Detection :=
  preds.filter (fun p => announceThreshold < p.score ∧ p.label ∉ announced)

/-- `candidates.sort((a, b) => b.score - a.score)[0]`: JavaScript sort is
stable, so the head of the descending sort is the first element of maximal
score; the fold replaces its best element only on a strictly larger score. -/
def selectTop (best : Detection) (rest : List Detection) : Detection :=
  rest.foldl (fun b q => if b.score < q.score then q else b) best

/-- One tick of the tracker on the already person-filtered prediction list
(the path of `detectObjects` in which the drawing context is available):
compute `newVisibleObjects`, delete the disappeared labels from the
announced set, replace the visible set wholesale, then announce the top
fresh high-confidence class (if any) and add it to the announced set. -/
def trackTick (st : TrackerState) (preds : List Detection) : TrackerState × Option String :=
  match candidateList preds (removeDisappeared st (newVisibleObjects preds)) with
  | [] =>
      (⟨newVisibleObjects preds, removeDisappeared st (newVisibleObjects preds)⟩, none)
  | p :: ps =>
      (⟨newVisibleObjects preds,
        jsSetAdd (removeDisappeared st (newVisibleObjects preds)) (selectTop p ps).label⟩,
       some (selectTop p ps).label)

/-- `speak(text)`: returns the text handed to speech synthesis, or nothing
when the voice toggle is off (`if (!speakResults) return`). -/
def speak (speakResults : Bool) (text : String) : Option String :=
  if speakResults then some text else none

/-- The outcome of one run of `detectObjects`: the new tracker state, the
announcement decision (the class added to the announced set and stored by
`setLastSpokenItem`), and the text actually uttered by speech synthesis. -/
structure TickResult where
  state : TrackerState
  announcement : Option String
  spoken : Option String
deriving DecidableEq

/-- One run of `detectObjects` on the raw prediction list.  The person
filter, `newVisibleObjects`, the disappearance pass and the wholesale
replacement of the visible set happen unconditionally; the announcement
block runs only inside the `if (ctx)` branch, and `speak` no-ops when the
voice toggle is off. -/
def detectObjectsStep (ctxAvailable speakResults : Bool) (st : TrackerState)
    (allPreds : List Detection) : TickResult :=
  let preds := personFilter allPreds
  if ctxAvailable then
    ⟨(trackTick st preds).1, (trackTick st preds).2,
      ((trackTick st preds).2).bind (speak speakResults)⟩
  else
    ⟨⟨newVisibleObjects preds, removeDisappeared st (newVisibleObjects preds)⟩, none, none⟩

/-- The application state touched by the stop branch of `toggleCamera`. -/
structure AppState where
  tracker : TrackerState
  isCameraActive : Bool
  detections : List Detection
  timer : Option Nat
  speakResults : Bool
  lastSpokenItem : String

/-- The stop branch of `toggleCamera` (taken when `isCameraActive`): both
tracking refs are reset to `new Set()`, `setIsCameraActive(false)`,
`setDetections([])`, and the repeating timer is cleared and nulled. -/
def toggleCameraOff (s : AppState) : AppState :=
  { s with tracker := initialState, isCameraActive := false, detections := [], timer := none }

/-- Tracker states reachable from start-up: the initial empty state, the
state after any run of `detectObjects` (with or without a drawing context,
voice on or off), and the state left by the stop branch of `toggleCamera`. -/
inductive Reachable : TrackerState → Prop
  | init : Reachable initialState
  | step (ctx spk : Bool) (preds : List Detection) {st : TrackerState} :
      Reachable st → Reachable (detectObjectsStep ctx spk st preds).state
  | stop (s : AppState) : Reachable (toggleCameraOff s).tracker

/-- The tick trace of a capture session: `stateAt input n` is the tracker
state before tick `n`, starting from the empty state; tick `n` consumes
`input n` (already person-filtered, as in the spec). -/
def stateAt (input : ℕ → List Detection) : ℕ → TrackerState
  | 0 => initialState
  | n + 1 => (trackTick (stateAt input n) (input n)).1

/-- The announcement emitted by tick `n` of the trace. -/
def announceAt (input : ℕ → List Detection) (n : ℕ) : Option String :=
  (trackTick (stateAt input n) (input n)).2

/-- Sample detection: an apple at confidence 0.7. -/
def appleDet : Detection := ⟨"apple", mkRat 7 10, (0, 0, 0, 0)⟩

/-- Sample detection: a carrot at confidence 0.6, strictly between the two
thresholds. -/
def carrotDet : Detection := ⟨"carrot", mkRat 6 10, (0, 0, 0, 0)⟩

/-- Sample detection: an apple at confidence exactly 0.55, the tracking
threshold. -/
def borderlineDet : Detection := ⟨"apple", mkRat 55 100, (0, 0, 0, 0)⟩

/-- Sample session: an apple on tick 0, nothing on tick 1 (the apple
disappears), the apple again on tick 2. -/
def sessionInput : ℕ → List Detection := fun n =>
  if n = 0 then [appleDet] else if n = 2 then [appleDet] else []

/-- Sample reachable state: the state after one tick on `[appleDet]` from
the initial state. -/
def sampleState : TrackerState := (detectObjectsStep true true initialState [appleDet]).state

/-! ### Basic membership lemmas for the JavaScript-set model -/

theorem trackThreshold_lt_announceThreshold : trackThreshold < announceThreshold := by decide

theorem mem_jsSetAdd (s : List String) (x y : String) :
    y ∈ jsSetAdd s x ↔ y ∈ s ∨ y = x := by
  unfold jsSetAdd
  split
  · rename_i hx
    constructor
    · exact Or.inl
    · rintro (hy | rfl)
      · exact hy
      · exact hx
  · simp

theorem mem_jsSetDelete (s : List String) (x y : String) :
    y ∈ jsSetDelete s x ↔ y ∈ s ∧ y ≠ x := by
  simp [jsSetDelete]

theorem mem_foldl_jsSetDelete (l : List String) :
    ∀ (a : List String) (y : String), y ∈ l.foldl jsSetDelete a ↔ y ∈ a ∧ y ∉ l := by
  induction l with
  | nil => simp
  | cons x l ih =>
    intro a y
    rw [List.foldl_cons, ih, mem_jsSetDelete, List.mem_cons]
    tauto

theorem mem_removeDisappeared (st : TrackerState) (nv : List String) (y : String) :
    y ∈ removeDisappeared st nv ↔ y ∈ st.announced ∧ (y ∉ st.visible ∨ y ∈ nv) := by
  rw [removeDisappeared, mem_foldl_jsSetDelete]
  unfold disappearedObjects
  simp only [List.mem_filter, decide_eq_true_eq, not_and, not_not]
  constructor
  · rintro ⟨ha, hf⟩
    refine ⟨ha, ?_⟩
    by_cases hv : y ∈ st.visible
    · exact Or.inr (hf hv)
    · exact Or.inl hv
  · rintro ⟨ha, hv | hnv⟩
    · exact ⟨ha, fun hmem => absurd hmem hv⟩
    · exact ⟨ha, fun _ => hnv⟩

theorem mem_newVisibleObjects (preds : List Detection) (y : String) :
    y ∈ newVisibleObjects preds ↔ ∃ p ∈ preds, trackThreshold < p.score ∧ p.label = y := by
  have general : ∀ (l : List Detection) (a : List String),
      (y ∈ l.foldl (fun s p => if trackThreshold < p.score then jsSetAdd s p.label else s) a
        ↔ y ∈ a ∨ ∃ p ∈ l, trackThreshold < p.score ∧ p.label = y) := by
    intro l
    induction l with
    | nil => simp
    | cons p l ih =>
      intro a
      rw [List.foldl_cons]
      by_cases hp : trackThreshold < p.score
      · rw [if_pos hp, ih, mem_jsSetAdd]
        simp only [List.mem_cons]
        constructor
        · rintro ((hy | rfl) | ⟨q, hq, hts, rfl⟩)
          · exact Or.inl hy
          · exact Or.inr ⟨p, Or.inl rfl, hp, rfl⟩
          · exact Or.inr ⟨q, Or.inr hq, hts, rfl⟩
        · rintro (hy | ⟨q, (rfl | hq), hts, rfl⟩)
          · exact Or.inl (Or.inl hy)
          · exact Or.inl (Or.inr rfl)
          · exact Or.inr ⟨q, hq, hts, rfl⟩
      · rw [if_neg hp, ih]
        simp only [List.mem_cons]
        constructor
        · rintro (hy | ⟨q, hq, hts, rfl⟩)
          · exact Or.inl hy
          · exact Or.inr ⟨q, Or.inr hq, hts, rfl⟩
        · rintro (hy | ⟨q, (rfl | hq), hts, rfl⟩)
          · exact Or.inl hy
          · exact absurd hts hp
          · exact Or.inr ⟨q, hq, hts, rfl⟩
  rw [newVisibleObjects, general preds []]
  simp

theorem mem_candidateList (preds : List Detection) (a : List String) (p : Detection) :
    p ∈ candidateList preds a ↔ p ∈ preds ∧ announceThreshold < p.score ∧ p.label ∉ a := by
  simp [candidateList]

theorem candidate_label_visible {preds : List Detection} {a : List String} {p : Detection}
    (hp : p ∈ candidateList preds a) : p.label ∈ newVisibleObjects preds := by
  rw [mem_candidateList] at hp
  rw [mem_newVisibleObjects]
  exact ⟨p, hp.1, lt_trans trackThreshold_lt_announceThreshold hp.2.1, rfl⟩

/-! ### The stable-sort top pick -/

theorem selectTop_cons (acc q : Detection) (ps : List Detection) :
    selectTop acc (q :: ps) = selectTop (if acc.score < q.score then q else acc) ps := rfl

theorem score_le_selectTop (ps : List Detection) :
    ∀ acc : Detection, acc.score ≤ (selectTop acc ps).score := by
  induction ps with
  | nil => intro acc; exact le_refl _
  | cons q ps ih =>
    intro acc
    rw [selectTop_cons]
    refine le_trans ?_ (ih _)
    split
    · exact le_of_lt (by assumption)
    · exact le_refl _

/-- The element picked by `selectTop` splits its input so that everything
before it scores strictly lower and everything after it scores no higher:
it is the first element of maximal score, exactly the head of a stable
descending sort. -/
theorem selectTop_split (ps : List Detection) :
    ∀ acc : Detection, ∃ l1 l2, acc :: ps = l1 ++ selectTop acc ps :: l2 ∧
      (∀ q ∈ l1, q.score < (selectTop acc ps).score) ∧
      (∀ q ∈ l2, q.score ≤ (selectTop acc ps).score) := by
  induction ps with
  | nil =>
    intro acc
    exact ⟨[], [], rfl, by simp, by simp⟩
  | cons q ps ih =>
    intro acc
    by_cases h : acc.score < q.score
    · have hsel : selectTop acc (q :: ps) = selectTop q ps := by
        rw [selectTop_cons, if_pos h]
      obtain ⟨l1, l2, hsplit, hl1, hl2⟩ := ih q
      refine ⟨acc :: l1, l2, ?_, ?_, ?_⟩
      · rw [hsel, List.cons_append, ← hsplit]
      · intro x hx
        rw [hsel]
        rcases List.mem_cons.mp hx with rfl | hx'
        · exact lt_of_lt_of_le h (score_le_selectTop ps q)
        · exact hl1 x hx'
      · intro x hx
        rw [hsel]
        exact hl2 x hx
    · have hsel : selectTop acc (q :: ps) = selectTop acc ps := by
        rw [selectTop_cons, if_neg h]
      obtain ⟨l1, l2, hsplit, hl1, hl2⟩ := ih acc
      cases l1 with
      | nil =>
        rw [List.nil_append, List.cons_eq_cons] at hsplit
        obtain ⟨h1, h2⟩ := hsplit
        refine ⟨[], q :: ps, ?_, by simp, ?_⟩
        · rw [hsel, List.nil_append, ← h1]
        · intro x hx
          rw [hsel, ← h1]
          rcases List.mem_cons.mp hx with rfl | hx'
          · exact le_of_not_lt h
          · have := hl2 x (h2 ▸ hx')
            rwa [← h1] at this
      | cons b l1t =>
        rw [List.cons_append, List.cons_eq_cons] at hsplit
        obtain ⟨hb, hps⟩ := hsplit
        have hbscore : acc.score < (selectTop acc ps).score := by
          have hmem := hl1 b (List.mem_cons_self b l1t)
          rwa [← hb] at hmem
        refine ⟨acc :: q :: l1t, l2, ?_, ?_, ?_⟩
        · rw [hsel, List.cons_append, List.cons_append, ← hps]
        · intro x hx
          rw [hsel]
          rcases List.mem_cons.mp hx with rfl | hx'
          · exact hbscore
          · rcases List.mem_cons.mp hx' with rfl | hx''
            · exact lt_of_le_of_lt (le_of_not_lt h) hbscore
            · exact hl1 x (List.mem_cons_of_mem b hx'')
        · intro x hx
          rw [hsel]
          exact hl2 x hx

theorem selectTop_mem (acc : Detection) (ps : List Detection) :
    selectTop acc ps ∈ acc :: ps := by
  obtain ⟨l1, l2, hsplit, -, -⟩ := selectTop_split ps acc
  rw [hsplit]
  simp

/-! ### Rewriting equations for one tick -/

theorem trackTick_eq_nil {st : TrackerState} {preds : List Detection}
    (heq : candidateList preds (removeDisappeared st (newVisibleObjects preds)) = []) :
    trackTick st preds =
      (⟨newVisibleObjects preds, removeDisappeared st (newVisibleObjects preds)⟩, none) := by
  unfold trackTick
  rw [heq]

theorem trackTick_eq_cons {st : TrackerState} {preds : List Detection} {p : Detection}
    {ps : List Detection}
    (heq : candidateList preds (removeDisappeared st (newVisibleObjects preds)) = p :: ps) :
    trackTick st preds =
      (⟨newVisibleObjects preds,
        jsSetAdd (removeDisappeared st (newVisibleObjects preds)) (selectTop p ps).label⟩,
       some (selectTop p ps).label) := by
  unfold trackTick
  rw [heq]

theorem trackTick_visible (st : TrackerState) (preds : List Detection) :
    (trackTick st preds).1.visible = newVisibleObjects preds := by
  unfold trackTick
  split <;> rfl

theorem announce_eq_some {st : TrackerState} {preds : List Detection} {l : String}
    (h : (trackTick st preds).2 = some l) :
    ∃ p ∈ candidateList preds (removeDisappeared st (newVisibleObjects preds)), p.label = l := by
  rcases heq : candidateList preds (removeDisappeared st (newVisibleObjects preds)) with
    _ | ⟨p, ps⟩
  · rw [trackTick_eq_nil heq] at h
    exact absurd h (by simp)
  · rw [trackTick_eq_cons heq] at h
    exact ⟨selectTop p ps, selectTop_mem p ps, Option.some.inj h⟩

theorem mem_announced_after {st : TrackerState} {preds : List Detection} {y : String}
    (hy : y ∈ removeDisappeared st (newVisibleObjects preds)) :
    y ∈ (trackTick st preds).1.announced := by
  rcases heq : candidateList preds (removeDisappeared st (newVisibleObjects preds)) with
    _ | ⟨p, ps⟩
  · rw [trackTick_eq_nil heq]
    exact hy
  · rw [trackTick_eq_cons heq]
    exact (mem_jsSetAdd _ _ _).mpr (Or.inl hy)

theorem announce_fresh {st : TrackerState} {preds : List Detection} {l : String}
    (h : (trackTick st preds).2 = some l) :
    l ∉ removeDisappeared st (newVisibleObjects preds) := by
  obtain ⟨p, hp, rfl⟩ := announce_eq_some h
  exact ((mem_candidateList _ _ _).mp hp).2.2

theorem announce_visible {st : TrackerState} {preds : List Detection} {l : String}
    (h : (trackTick st preds).2 = some l) :
    l ∈ newVisibleObjects preds := by
  obtain ⟨p, hp, rfl⟩ := announce_eq_some h
  exact candidate_label_visible hp

theorem announce_mem_announced {st : TrackerState} {preds : List Detection} {l : String}
    (h : (trackTick st preds).2 = some l) :
    l ∈ (trackTick st preds).1.announced := by
  rcases heq : candidateList preds (removeDisappeared st (newVisibleObjects preds)) with
    _ | ⟨p, ps⟩
  · rw [trackTick_eq_nil heq] at h
    exact absurd h (by simp)
  · rw [trackTick_eq_cons heq] at h ⊢
    rw [mem_jsSetAdd]
    exact Or.inr (Option.some.inj h).symm

theorem detectObjectsStep_ctx (spk : Bool) (st : TrackerState) (allPreds : List Detection) :
    detectObjectsStep true spk st allPreds =
      ⟨(trackTick st (personFilter allPreds)).1, (trackTick st (personFilter allPreds)).2,
        ((trackTick st (personFilter allPreds)).2).bind (speak spk)⟩ := rfl

theorem detectObjectsStep_noCtx (spk : Bool) (st : TrackerState) (allPreds : List Detection) :
    detectObjectsStep false spk st allPreds =
      ⟨⟨newVisibleObjects (personFilter allPreds),
        removeDisappeared st (newVisibleObjects (personFilter allPreds))⟩, none, none⟩ := rfl

theorem stateAt_succ (input : ℕ → List Detection) (n : ℕ) :
    stateAt input (n + 1) = (trackTick (stateAt input n) (input n)).1 := rfl

theorem announceAt_def (input : ℕ → List Detection) (n : ℕ) :
    announceAt input n = (trackTick (stateAt input n) (input n)).2 := rfl

theorem mem_trackTick_announced {st : TrackerState} {preds : List Detection} {y : String} :
    y ∈ (trackTick st preds).1.announced ↔
      y ∈ removeDisappeared st (newVisibleObjects preds) ∨ (trackTick st preds).2 = some y := by
  rcases heq : candidateList preds (removeDisappeared st (newVisibleObjects preds)) with
    _ | ⟨p, ps⟩
  · rw [trackTick_eq_nil heq]
    simp
  · rw [trackTick_eq_cons heq]
    rw [mem_jsSetAdd]
    simp [eq_comm]

/-- One tick keeps the announced set inside the visible set. -/
theorem trackTick_announced_subset {st : TrackerState} {preds : List Detection}
    (hsub : ∀ y ∈ st.announced, y ∈ st.visible) :
    ∀ y ∈ (trackTick st preds).1.announced, y ∈ (trackTick st preds).1.visible := by
  intro y hy
  rw [trackTick_visible]
  rcases mem_trackTick_announced.mp hy with h1 | h2
  · rcases (mem_removeDisappeared _ _ _).mp h1 with ⟨ha, hv | hnv⟩
    · exact absurd (hsub y ha) hv
    · exact hnv
  · exact announce_visible h2

/-- Invariant of every reachable tracker state: announced labels are
currently visible. -/
theorem reachable_announced_subset {st : TrackerState} (h : Reachable st) :
    ∀ y ∈ st.announced, y ∈ st.visible := by
  induction h with
  | init => intro y hy; exact absurd hy (List.not_mem_nil y)
  | step ctx spk preds h ih =>
    cases ctx
    · intro y hy
      rw [detectObjectsStep_noCtx] at hy ⊢
      rcases (mem_removeDisappeared _ _ _).mp hy with ⟨ha, hv | hnv⟩
      · exact absurd (ih y ha) hv
      · exact hnv
    · intro y hy
      rw [detectObjectsStep_ctx] at hy ⊢
      exact trackTick_announced_subset ih y hy
  | stop s => intro y hy; exact absurd hy (List.not_mem_nil y)

theorem bind_speak_false (x : Option String) : x.bind (speak false) = none := by
  cases x <;> rfl

theorem bind_speak_true_eq_some {x : Option String} {l : String}
    (h : x.bind (speak true) = some l) : x = some l := by
  cases x
  · exact absurd h (by simp)
  · exact h

/-! ### The claims -/

/-- Claim C1: on a tick of the tracker (person-filtered input), if the
candidate list — detections above the announce threshold whose label is not
in the announced set as it stands after the disappearance pass — is
non-empty, exactly one announcement is emitted: the label of the
highest-confidence candidate, ties broken in favor of the candidate
encountered first in input order (everything before the pick scores
strictly lower, everything after scores no higher), and that label is added
to the announced set; if no candidate exists, no announcement is emitted
and no label is added. -/
theorem C1_tick_announces_unique_top (st : TrackerState) (preds : List Detection) :
    (∃ top l1 l2,
        candidateList preds (removeDisappeared st (newVisibleObjects preds)) = l1 ++ top :: l2 ∧
        (∀ q ∈ l1, q.score < top.score) ∧
        (∀ q ∈ l2, q.score ≤ top.score) ∧
        (trackTick st preds).2 = some top.label ∧
        (trackTick st preds).1.announced =
          jsSetAdd (removeDisappeared st (newVisibleObjects preds)) top.label)
    ∨ (candidateList preds (removeDisappeared st (newVisibleObjects preds)) = [] ∧
        (trackTick st preds).2 = none ∧
        (trackTick st preds).1.announced = removeDisappeared st (newVisibleObjects preds)) := by
  rcases heq : candidateList preds (removeDisappeared st (newVisibleObjects preds)) with
    _ | ⟨p, ps⟩
  · right
    refine ⟨rfl, ?_, ?_⟩ <;> rw [trackTick_eq_nil heq]
  · left
    obtain ⟨l1, l2, hsplit, hl1, hl2⟩ := selectTop_split ps p
    refine ⟨selectTop p ps, l1, l2, hsplit, hl1, hl2, ?_, ?_⟩ <;> rw [trackTick_eq_cons heq]

/-- Claim C2: in any tick trace from the empty state, a label announced on
two ticks `i < j` must have been absent from the visible set on some tick
strictly between them: a label is announced at most once per maximal run of
consecutive presence. -/
theorem C2_announced_once_per_presence_run (input : ℕ → List Detection) (i j : ℕ) (l : String)
    (hij : i < j) (hi : announceAt input i = some l) (hj : announceAt input j = some l) :
    ∃ k, i < k ∧ k < j ∧ l ∉ (stateAt input (k + 1)).visible := by
  by_contra hcon
  push_neg at hcon
  have key : ∀ k, i < k → k ≤ j → l ∈ (stateAt input k).announced := by
    intro k
    induction k with
    | zero => intro h _; exact absurd h (Nat.not_lt_zero i)
    | succ k ih =>
      intro hik hkj
      rcases Nat.lt_succ_iff_lt_or_eq.mp hik with hik' | rfl
      · have hkj' : k < j := Nat.lt_of_succ_le hkj
        have hann := ih hik' (le_of_lt hkj')
        have hvis := hcon k hik' hkj'
        rw [stateAt_succ, trackTick_visible] at hvis
        rw [stateAt_succ]
        exact mem_announced_after ((mem_removeDisappeared _ _ _).mpr ⟨hann, Or.inr hvis⟩)
      · rw [stateAt_succ]
        exact announce_mem_announced hi
  have hja := key j hij (le_refl j)
  have hvisj : l ∈ newVisibleObjects (input j) := announce_visible hj
  exact announce_fresh hj ((mem_removeDisappeared _ _ _).mpr ⟨hja, Or.inr hvisj⟩)

/-- Claim C2 witness: the apple announced on tick 0 and again on tick 2 of
`sessionInput` was indeed absent from the visible set in between. -/
theorem C2_witness :
    (0 < 2 ∧ announceAt sessionInput 0 = some ("apple") ∧
      announceAt sessionInput 2 = some ("apple")) ∧
    ∃ k, 0 < k ∧ k < 2 ∧ ("apple") ∉ (stateAt sessionInput (k + 1)).visible :=
  ⟨⟨by decide, by decide, by decide⟩,
   C2_announced_once_per_presence_run sessionInput 0 2 ("apple")
     (by decide) (by decide) (by decide)⟩

/-- Claim C3: on every tick, a previously visible label that is not in the
new visible set is absent from the resulting announced set; the visible set
is replaced wholesale by `newVisibleObjects`; and an empty detection list
yields no announcement, empties the visible set, and, from any reachable
state, leaves the announced set empty. -/
theorem C3_disappearance_resets_announced (st : TrackerState) (preds : List Detection) :
    (∀ l ∈ st.visible, l ∉ newVisibleObjects preds → l ∉ (trackTick st preds).1.announced) ∧
    (trackTick st preds).1.visible = newVisibleObjects preds ∧
    (trackTick st []).2 = none ∧
    (trackTick st []).1.visible = [] ∧
    (Reachable st → (trackTick st []).1.announced = []) := by
  refine ⟨?_, trackTick_visible st preds, ?_, ?_, ?_⟩
  · intro l hv hnv hmem
    rcases mem_trackTick_announced.mp hmem with h1 | h2
    · rcases (mem_removeDisappeared _ _ _).mp h1 with ⟨-, hv' | hnv'⟩
      · exact hv' hv
      · exact hnv hnv'
    · exact hnv (announce_visible h2)
  · rw [@trackTick_eq_nil st [] rfl]
  · rw [@trackTick_eq_nil st [] rfl]
    rfl
  · intro h
    rw [@trackTick_eq_nil st [] rfl]
    refine List.eq_nil_iff_forall_not_mem.mpr fun y hy => ?_
    rcases (mem_removeDisappeared _ _ _).mp hy with ⟨ha, hv | hnv⟩
    · exact hv (reachable_announced_subset h y ha)
    · exact absurd hnv (List.not_mem_nil y)

/-- Claim C3 witness: from the reachable state left by one apple tick, an
empty detection list empties the announced set. -/
theorem C3_witness : Reachable sampleState ∧ (trackTick sampleState []).1.announced = [] :=
  ⟨Reachable.step true true [appleDet] Reachable.init,
   (C3_disappearance_resets_announced sampleState []).2.2.2.2
     (Reachable.step true true [appleDet] Reachable.init)⟩

/-- Claim C4 counterexample: a detection at confidence exactly 0.55 — the
tracking threshold — is NOT included in the tick's visible set, because the
source compares `pred.score > 0.55` strictly; the claim that the threshold
is inclusive is false. -/
theorem C4_counterexample :
    borderlineDet.score = trackThreshold ∧
    borderlineDet.label = "apple" ∧
    "apple" ∉ (trackTick initialState [borderlineDet]).1.visible := by
  decide

/-- Claim C4 amended: the tracking threshold is exclusive — a label is in
the tick's visible set iff some detection of it has confidence strictly
above 0.55; a label whose confidence equals 0.55 exactly is therefore not
considered currently present. -/
theorem C4_amended_strict_threshold (st : TrackerState) (preds : List Detection) (l : String) :
    l ∈ (trackTick st preds).1.visible ↔
      ∃ p ∈ preds, p.label = l ∧ trackThreshold < p.score := by
  rw [trackTick_visible, mem_newVisibleObjects]
  constructor
  · rintro ⟨p, hp, hts, rfl⟩
    exact ⟨p, hp, rfl, hts⟩
  · rintro ⟨p, hp, rfl, hts⟩
    exact ⟨p, hp, hts, rfl⟩

/-- Claim C5: a label detected on a tick, all of whose detections have
confidence strictly between the tracking threshold and the announce
threshold, is included in the tick's visible set but is not emitted as the
tick's announcement. -/
theorem C5_tracked_but_not_announced (st : TrackerState) (preds : List Detection)
    (l : String) (hex : ∃ p ∈ preds, p.label = l)
    (hall : ∀ p ∈ preds, p.label = l → trackThreshold < p.score ∧ p.score < announceThreshold) :
    l ∈ (trackTick st preds).1.visible ∧ (trackTick st preds).2 ≠ some l := by
  constructor
  · rw [trackTick_visible, mem_newVisibleObjects]
    obtain ⟨p, hp, rfl⟩ := hex
    exact ⟨p, hp, (hall p hp rfl).1, rfl⟩
  · intro hann
    obtain ⟨p, hp, rfl⟩ := announce_eq_some hann
    have hcand := (mem_candidateList _ _ _).mp hp
    exact lt_asymm (hall p hcand.1 rfl).2 hcand.2.1

/-- Claim C5 witness: a carrot at 0.6 is tracked as visible on the tick but
not announced. -/
theorem C5_witness :
    ((∃ p ∈ [carrotDet], p.label = "carrot") ∧
      ∀ p ∈ [carrotDet], p.label = "carrot" →
        trackThreshold < p.score ∧ p.score < announceThreshold) ∧
    "carrot" ∈ (trackTick initialState [carrotDet]).1.visible ∧
    (trackTick initialState [carrotDet]).2 ≠ some ("carrot") :=
  ⟨⟨by decide, by decide⟩,
   C5_tracked_but_not_announced initialState [carrotDet] ("carrot") (by decide) (by decide)⟩

/-- Claim C6: the stop branch of `toggleCamera` resets both tracking sets
to empty and cancels the repeating timer, so the tracker state it leaves is
the initial one regardless of the stopped session's state. -/
theorem C6_stop_resets_tracking (s : AppState) :
    (toggleCameraOff s).tracker = initialState ∧
    (toggleCameraOff s).tracker.visible = [] ∧
    (toggleCameraOff s).tracker.announced = [] ∧
    (toggleCameraOff s).timer = none ∧
    (toggleCameraOff s).isCameraActive = false ∧
    ∀ s2 : AppState, (toggleCameraOff s).tracker = (toggleCameraOff s2).tracker :=
  ⟨rfl, rfl, rfl, rfl, rfl, fun _ => rfl⟩

/-- Claim C7 counterexample: two runs of `detectObjects` with equal previous
state (the empty state) and equal detections (one apple at 0.7), differing
only in whether the canvas drawing context is available, produce different
announced sets and different announcements — so the per-tick update is not
a function of (previous state, new detections) alone. -/
theorem C7_counterexample :
    (detectObjectsStep true true initialState [appleDet]).state.announced ≠
      (detectObjectsStep false true initialState [appleDet]).state.announced ∧
    (detectObjectsStep true true initialState [appleDet]).announcement ≠
      (detectObjectsStep false true initialState [appleDet]).announcement := by
  decide

/-- Claim C7 amended: the per-tick update is a pure function of (previous
state, new detections, drawing-context availability): with the context
availability fixed, the resulting state and announcement are equal for any
two runs on equal previous state and detections, independent in particular
of the voice-feedback toggle. -/
theorem C7_amended_pure_tick (ctx spk1 spk2 : Bool) (st : TrackerState)
    (preds : List Detection) :
    (detectObjectsStep ctx spk1 st preds).state = (detectObjectsStep ctx spk2 st preds).state ∧
    (detectObjectsStep ctx spk1 st preds).announcement =
      (detectObjectsStep ctx spk2 st preds).announcement := by
  cases ctx <;> exact ⟨rfl, rfl⟩

/-- Claim C8: in every reachable tracker state — initial, after any tick,
or after a capture stop — the announced set is a subset of the visible
set. -/
theorem C8_announced_subset_visible (st : TrackerState) (h : Reachable st) :
    st.announced ⊆ st.visible := by
  intro y hy
  exact reachable_announced_subset h y hy

/-- Claim C8 witness: the invariant at the reachable state after one apple
tick. -/
theorem C8_witness : Reachable sampleState ∧ sampleState.announced ⊆ sampleState.visible :=
  ⟨Reachable.step true true [appleDet] Reachable.init,
   C8_announced_subset_visible sampleState (Reachable.step true true [appleDet] Reachable.init)⟩

/-- Claim C9: the tracker's state update is independent of the voice
toggle: with voice disabled the resulting state and announcement decision
equal those of the voice-enabled run, nothing is uttered, the decided label
is still added to the announced set, and on a later tick (voice re-enabled)
that label is not uttered again while it is still visible. -/
theorem C9_voice_toggle_only_mutes (st : TrackerState) (preds : List Detection) (spk : Bool) :
    (detectObjectsStep true false st preds).state = (detectObjectsStep true spk st preds).state ∧
    (detectObjectsStep true false st preds).announcement =
      (detectObjectsStep true spk st preds).announcement ∧
    (detectObjectsStep true false st preds).spoken = none ∧
    (∀ l, (detectObjectsStep true false st preds).announcement = some l →
      l ∈ (detectObjectsStep true false st preds).state.announced) ∧
    (∀ l preds2, (detectObjectsStep true false st preds).announcement = some l →
      l ∈ newVisibleObjects (personFilter preds2) →
      (detectObjectsStep true true (detectObjectsStep true false st preds).state preds2).spoken
        ≠ some l) := by
  refine ⟨rfl, rfl, ?_, ?_, ?_⟩
  · rw [detectObjectsStep_ctx]
    exact bind_speak_false _
  · intro l hl
    rw [detectObjectsStep_ctx] at hl ⊢
    exact announce_mem_announced hl
  · intro l preds2 hl hnv hsp
    rw [detectObjectsStep_ctx] at hl
    rw [detectObjectsStep_ctx, detectObjectsStep_ctx] at hsp
    have hann2 := bind_speak_true_eq_some hsp
    have hstate : l ∈ (trackTick st (personFilter preds)).1.announced :=
      announce_mem_announced hl
    exact announce_fresh hann2 ((mem_removeDisappeared _ _ _).mpr ⟨hstate, Or.inr hnv⟩)

/-- Claim C9 witness: with voice off, the apple is decided and recorded but
not uttered, and is not uttered on the next tick either while still
visible. -/
theorem C9_witness :
    ((detectObjectsStep true false initialState [appleDet]).announcement = some ("apple") ∧
      "apple" ∈ newVisibleObjects (personFilter [appleDet])) ∧
    (detectObjectsStep true true
        (detectObjectsStep true false initialState [appleDet]).state [appleDet]).spoken
      ≠ some ("apple") :=
  ⟨⟨by decide, by decide⟩,
   (C9_voice_toggle_only_mutes initialState [appleDet] true).2.2.2.2 ("apple") [appleDet]
     (by decide) (by decide)⟩

/-- Claim C10: on a tick where the canvas drawing context is unavailable,
the tracker still removes disappeared labels from the announced set and
replaces the visible set with `newVisibleObjects` (the same visible set the
context-available run produces), but it emits no announcement, utters
nothing, and adds no label to the announced set. -/
theorem C10_no_ctx_skips_announcement (spk : Bool) (st : TrackerState)
    (allPreds : List Detection) :
    (detectObjectsStep false spk st allPreds).state.visible =
      newVisibleObjects (personFilter allPreds) ∧
    (detectObjectsStep false spk st allPreds).state.announced =
      removeDisappeared st (newVisibleObjects (personFilter allPreds)) ∧
    (detectObjectsStep false spk st allPreds).announcement = none ∧
    (detectObjectsStep false spk st allPreds).spoken = none ∧
    (∀ y, y ∈ (detectObjectsStep false spk st allPreds).state.announced → y ∈ st.announced) ∧
    (detectObjectsStep false spk st allPreds).state.visible =
      (detectObjectsStep true spk st allPreds).state.visible := by
  refine ⟨rfl, rfl, rfl, rfl, ?_, ?_⟩
  · intro y hy
    rw [detectObjectsStep_noCtx] at hy
    exact ((mem_removeDisappeared _ _ _).mp hy).1
  · rw [detectObjectsStep_noCtx, detectObjectsStep_ctx]
    exact (trackTick_visible st (personFilter allPreds)).symm
